import Mathlib

/-!
Shallow embedding of the `webscraping-api` repository:
`middleware.py` (rate limiter, URL safety checker) and
`scraper/web_scraper.py` (page-info and product extraction).

Time values (`time.time()`) are modelled as integers; the code only
compares times and subtracts them, so any linearly ordered abelian group is
faithful.  Strings are modelled as `List Char`.
-/

namespace WebApi

/-! ## Rate limiter (`middleware.py`, class `RateLimiter`)

The Python state is `requests : defaultdict(deque)` and `blocked_ips : dict`,
keyed by identifier.  Distinct identifiers never interact, so we embed the
state of a single identifier: its deque of request times (front = oldest)
and its optional block-until time. -/

structure RLState where
  requests : List Int
  blocked : Option Int
  deriving Repr, DecidableEq

/-- The `while` loop of `is_allowed`: pop from the front while
`now - front > window`. -/
def cleanup (window now : Int) : List Int → List Int
  | [] => []
  | t :: ts => if now - t > window then cleanup window now ts else t :: ts

/-- Body of `is_allowed` after the block check: clean up old requests, compare the
remaining count with `limit`; on denial block for one hour (3600 s), on
admission record `now`. -/
def isAllowedCore (limit : Nat) (window now : Int) (reqs : List Int) :
    Bool × RLState :=
  let reqs2 := cleanup window now reqs
  if (limit : Int) ≤ reqs2.length then
    (false, ⟨reqs2, some (now + 3600)⟩)
  else
    (true, ⟨reqs2 ++ [now], none⟩)

/-- Model of `RateLimiter.is_allowed(identifier, limit, window)` for one
identifier:
first the temporary-block check (deny while `now < blockUntil`, delete an
expired block), then the windowed count. -/
def isAllowed (limit : Nat) (window now : Int) (st : RLState) :
    Bool × RLState :=
  match st.blocked with
  | some b =>
      if now < b then (false, st)
      else isAllowedCore limit window now st.requests
  | none => isAllowedCore limit window now st.requests

/-- A sequence of `is_allowed` calls at the given times, threading the state;
returns the list of verdicts and the final state. -/
def runCalls (limit : Nat) (window : Int) (st : RLState) :
    List Int → List Bool × RLState
  | [] => ([], st)
  | t :: ts =>
      let r := isAllowed limit window t st
      let rest := runCalls limit window r.2 ts
      (r.1 :: rest.1, rest.2)

/-- The fresh state of an identifier with no recorded history and no block. -/
def freshRL : RLState := ⟨[], none⟩

example : (runCalls 2 10 freshRL [0, 1, 2]).1 = [true, true, false] := by decide

example : (runCalls 2 10 freshRL [0, 1, 2, 3600, 3700]).1 =
    [true, true, false, false, true] := by decide

theorem cleanup_eq_self (window now : Int) (l : List Int)
    (h : ∀ t ∈ l, now - t ≤ window) : cleanup window now l = l := by
  cases l with
  | nil => rfl
  | cons a l =>
      have ha : ¬ now - a > window := not_lt.2 (h a (by simp))
      simp [cleanup, ha]

theorem runCalls_cons (limit : Nat) (window t : Int) (st : RLState)
    (ts : List Int) :
    runCalls limit window st (t :: ts) =
      ((isAllowed limit window t st).1 ::
          (runCalls limit window (isAllowed limit window t st).2 ts).1,
        (runCalls limit window (isAllowed limit window t st).2 ts).2) := rfl

theorem runCalls_fill (limit : Nat) (window : Int) :
    ∀ (ts pre : List Int) (t : Int),
      pre.length + (t :: ts).length = limit + 1 →
      (∀ s ∈ pre ++ t :: ts, ∀ u ∈ pre ++ t :: ts, u - s < window) →
      (runCalls limit window ⟨pre, none⟩ (t :: ts)).1 =
        List.replicate (limit - pre.length) true ++ [false] := by
  intro ts
  induction ts with
  | nil =>
      intro pre t hlen hspan
      have hp : pre.length = limit := by simpa using hlen
      have hclean : cleanup window t pre = pre := by
        refine cleanup_eq_self window t pre fun s hs => ?_
        exact le_of_lt (hspan s (by simp [hs]) t (by simp))
      have hfull : (limit : Int) ≤ (cleanup window t pre).length := by
        rw [hclean, hp]
      simp [runCalls, isAllowed, isAllowedCore, hclean, hfull, hp]
  | cons t2 ts ih =>
      intro pre t hlen hspan
      have hlt : pre.length < limit := by
        simp [List.length_cons] at hlen
        omega
      have hclean : cleanup window t pre = pre := by
        refine cleanup_eq_self window t pre fun s hs => ?_
        exact le_of_lt (hspan s (by simp [hs]) t (by simp))
      have hnotfull : ¬ (limit : Int) ≤ (pre.length : Int) := by
        exact_mod_cast not_le.2 hlt
      have hcall : isAllowed limit window t ⟨pre, none⟩ =
          (true, ⟨pre ++ [t], none⟩) := by
        simp only [isAllowed, isAllowedCore, hclean]
        rw [if_neg hnotfull]
      have hmem : pre ++ [t] ++ t2 :: ts = pre ++ t :: t2 :: ts := by simp
      have htail := ih (pre ++ [t]) t2
        (by simp at hlen ⊢; omega)
        (by rw [hmem]; exact hspan)
      have hrep : limit - pre.length = (limit - (pre.length + 1)) + 1 := by
        omega
      rw [runCalls_cons, hcall]
      dsimp only
      rw [htail]
      simp [hrep, List.replicate_succ]

/-- C1: starting from a fresh identifier (no history, no block), `limit + 1`
calls to `is_allowed` whose times all lie within a span shorter than `window`
yield `limit` admissions followed by one denial. -/
theorem rateLimiter_limit_then_deny (limit : Nat) (window : Int)
    (ts : List Int) (hlen : ts.length = limit + 1)
    (hspan : ∀ s ∈ ts, ∀ u ∈ ts, u - s < window) :
    (runCalls limit window freshRL ts).1 =
      List.replicate limit true ++ [false] := by
  cases ts with
  | nil => simp at hlen
  | cons t ts =>
      have := runCalls_fill limit window ts [] t (by simpa using hlen)
        (by simpa using hspan)
      simpa [freshRL] using this

theorem rateLimiter_limit_then_deny_witness :
    (([0, 1, 2] : List Int).length = 2 + 1) ∧
      (∀ s ∈ ([0, 1, 2] : List Int), ∀ u ∈ ([0, 1, 2] : List Int),
        u - s < 10) ∧
      (runCalls 2 10 freshRL [0, 1, 2]).1 = List.replicate 2 true ++ [false] :=
  ⟨by decide, by decide,
    rateLimiter_limit_then_deny 2 10 [0, 1, 2] (by decide) (by decide)⟩

theorem blocked_denies (limit : Nat) (window : Int) :
    ∀ (us : List Int) (st : RLState) (b : Int), st.blocked = some b →
      (∀ u ∈ us, u < b) →
      (runCalls limit window st us).1 = List.replicate us.length false := by
  intro us
  induction us with
  | nil => intro st b _ _; rfl
  | cons u us ih =>
      intro st b hb hus
      have hu : u < b := hus u (by simp)
      have hstep : isAllowed limit window u st = (false, st) := by
        simp [isAllowed, hb, hu]
      simp only [runCalls, hstep, List.length_cons, List.replicate_succ]
      exact congrArg (false :: ·) (ih st b hb (fun v hv => hus v (by simp [hv])))

/-- C2: when a call at time `d` is denied because the cleaned-up window count
has reached `limit` (the identifier not being under an active block), the
denial installs a block until `d + 3600` — one hour, independent of `window` —
and every subsequent call strictly before `d + 3600` is denied, whatever
`limit` and `window` those later calls use (even ones under which the counted
window would have emptied). -/
theorem rateLimiter_block_one_hour (limit limit2 : Nat) (window window2 d : Int)
    (st : RLState) (us : List Int)
    (hnb : ∀ b, st.blocked = some b → b ≤ d)
    (hfull : (limit : Int) ≤ (cleanup window d st.requests).length)
    (hus : ∀ u ∈ us, u < d + 3600) :
    (isAllowed limit window d st).1 = false ∧
      (isAllowed limit window d st).2.blocked = some (d + 3600) ∧
      (runCalls limit2 window2 (isAllowed limit window d st).2 us).1 =
        List.replicate us.length false := by
  have hcall : isAllowed limit window d st =
      (false, ⟨cleanup window d st.requests, some (d + 3600)⟩) := by
    match hb : st.blocked with
    | none => simp [isAllowed, hb, isAllowedCore, hfull]
    | some b =>
        have : ¬ d < b := not_lt.2 (hnb b hb)
        simp [isAllowed, hb, this, isAllowedCore, hfull]
  refine ⟨by simp [hcall], by simp [hcall], ?_⟩
  rw [hcall]
  exact blocked_denies limit2 window2 us _ (d + 3600) rfl hus

theorem rateLimiter_block_one_hour_witness :
    ((2 : Int) ≤ (cleanup 10 1 [0, 0]).length) ∧
      (∀ u ∈ ([100, 3599] : List Int), u < 1 + 3600) ∧
      (isAllowed 2 10 1 ⟨[0, 0], none⟩).1 = false ∧
      (isAllowed 2 10 1 ⟨[0, 0], none⟩).2.blocked = some (1 + 3600) ∧
      (runCalls 5 1 (isAllowed 2 10 1 ⟨[0, 0], none⟩).2 [100, 3599]).1 =
        List.replicate ([100, 3599] : List Int).length false :=
  ⟨by decide, by decide,
    rateLimiter_block_one_hour 2 5 10 1 1 ⟨[0, 0], none⟩ [100, 3599]
      (fun b h => Option.noConfusion h) (by decide) (by decide)⟩

/-! ## URL parsing (`urllib.parse.urlsplit`/`urlparse`, as used by
`SecurityMiddleware.is_safe_url`)

`is_safe_url` lowercases the URL and hands it to `urlparse`; the only
exception `urlparse` can raise on a string input is the "Invalid IPv6 URL"
`ValueError` for a bracket-mismatched netloc, modelled as `Except.error`. -/

def pyLower (s : List Char) : List Char := s.map Char.toLower

/-- C0 control characters and space, stripped from the front of the URL. -/
def isC0OrSpace (c : Char) : Bool := c.toNat ≤ 32

/-- Tab, CR and LF are removed from the whole URL before parsing. -/
def isUnsafeUrlChar (c : Char) : Bool := c = '\t' || c = '\r' || c = '\n'

/-- Split a list at the first occurrence of `c`; `none` when `c` is absent. -/
def spanUntil (c : Char) : List Char → Option (List Char × List Char)
  | [] => none
  | a :: rest =>
      if a = c then some ([], rest)
      else
        match spanUntil c rest with
        | none => none
        | some p => some (a :: p.1, p.2)

/-- Characters admissible in a URL scheme after the first. -/
def schemeChar (c : Char) : Bool := c.isAlphanum || c = '+' || c = '-' || c = '.'

/-- Scheme recognition in `urlsplit`: the part before the first `:` is a
scheme when it is non-empty, starts with an ASCII letter and consists of
scheme characters; otherwise the scheme is empty and the URL untouched. -/
def splitScheme (url : List Char) : List Char × List Char :=
  match spanUntil ':' url with
  | none => ([], url)
  | some (pre, post) =>
      match pre with
      | [] => ([], url)
      | c :: rest =>
          if c.isAlpha && (c :: rest).all schemeChar then
            (pyLower (c :: rest), post)
          else ([], url)

/-- A character that does not terminate the netloc (`_splitnetloc` stops at
the first of `/`, `?`, `#`). -/
def notNetlocEnd (c : Char) : Bool := !(c = '/' || c = '?' || c = '#')

/-- Python `url.split(c, 1)` when `c` occurs, else `(url, "")`. -/
def splitAtFirst (c : Char) (l : List Char) : List Char × List Char :=
  match spanUntil c l with
  | none => (l, [])
  | some p => p

structure UrlParts where
  scheme : List Char
  netloc : List Char
  path : List Char
  params : List Char
  query : List Char
  fragment : List Char
  deriving Repr, DecidableEq

/-- Model of `urllib.parse.urlsplit` on a string: WHATWG stripping, scheme, `//`-led
netloc (with the bracket-mismatch `ValueError`), fragment, then query.
`params` is left empty here and filled in by `urlparseE`. -/
def urlsplitE (url0 : List Char) : Except Unit UrlParts :=
  let url1 := (url0.dropWhile isC0OrSpace).filter (fun c => !isUnsafeUrlChar c)
  let sp := splitScheme url1
  let np : List Char × List Char :=
    match sp.2 with
    | '/' :: '/' :: r => (r.takeWhile notNetlocEnd, r.dropWhile notNetlocEnd)
    | _ => ([], sp.2)
  if ('[' ∈ np.1 ∧ ']' ∉ np.1) ∨ (']' ∈ np.1 ∧ '[' ∉ np.1) then .error ()
  else
    let ff := splitAtFirst '#' np.2
    let qq := splitAtFirst '?' ff.1
    .ok ⟨sp.1, np.1, qq.1, [], qq.2, ff.2⟩

/-- The pair `(prefix up to and including the last slash, suffix after it)`. -/
def splitLastSlash (p : List Char) : List Char × List Char :=
  ((p.reverse.dropWhile (· ≠ '/')).reverse,
    (p.reverse.takeWhile (· ≠ '/')).reverse)

/-- Model of `urllib.parse._splitparams` guarded by the check that `;`
occurs in the path: split the last path
segment at its first `;`. -/
def splitparams (p : List Char) : List Char × List Char :=
  if ';' ∈ p then
    if '/' ∈ p then
      match spanUntil ';' (splitLastSlash p).2 with
      | none => (p, [])
      | some a => ((splitLastSlash p).1 ++ a.1, a.2)
    else
      match spanUntil ';' p with
      | none => (p, [])
      | some a => a
  else (p, [])

/-- Model of `urllib.parse.urlparse`: `urlsplit` plus params separation. -/
def urlparseE (url : List Char) : Except Unit UrlParts :=
  match urlsplitE url with
  | .error e => .error e
  | .ok u => .ok { u with path := (splitparams u.path).1,
                          params := (splitparams u.path).2 }

/-! ## `SecurityMiddleware.is_safe_url` -/

/-- The configured denylist `suspicious_domains`. -/
def suspiciousDomains : List (List Char) :=
  ["malware.com".toList, "phishing.net".toList, "spam.org".toList]

/-- The configured `suspicious_patterns` checked against the path. -/
def suspiciousPatterns : List (List Char) :=
  ["admin".toList, "login".toList, "password".toList, "secret".toList,
    "private".toList]

/-- The Python substring test `pat in text`. -/
def containsSub (pat : List Char) : List Char → Bool
  | [] => pat.isEmpty
  | c :: rest => pat.isPrefixOf (c :: rest) || containsSub pat rest

/-- Model of `SecurityMiddleware.is_safe_url`: lowercase and parse the URL (a parse
exception yields `False`), then in order: denylisted netloc, suspicious
substring in the path, non-HTTP(S) scheme. -/
def isSafeUrl (url : List Char) : Bool :=
  match urlparseE (pyLower url) with
  | .error _ => false
  | .ok p =>
      if p.netloc ∈ suspiciousDomains then false
      else if suspiciousPatterns.any
          (fun pat => containsSub pat (pyLower p.path)) then false
      else if ¬ (p.scheme = "http".toList ∨ p.scheme = "https".toList) then
        false
      else true

example : isSafeUrl "ftp://example.com".toList = false := by decide
example : isSafeUrl "https://example.com/page".toList = true := by decide
example : isSafeUrl "https://example.com/admin/x".toList = false := by decide
example : isSafeUrl "https://malware.com".toList = false := by decide
example : isSafeUrl "https://malware.com:8080/".toList = true := by decide
example : isSafeUrl "HTTPS://Example.com/PAGE".toList = true := by decide
example : urlparseE (pyLower "http://[abc".toList) = .error () := by rfl

/-- C4: `is_safe_url` rejects `ftp://example.com` (non-HTTP scheme), accepts
`https://example.com/page`, rejects `https://example.com/admin/x` (suspicious
path pattern), and rejects any URL whose parsed network location is a
denylisted domain, whatever its scheme or path. -/
theorem isSafeUrl_cases (u : List Char) (p : UrlParts)
    (hparse : urlparseE (pyLower u) = .ok p)
    (hdom : p.netloc ∈ suspiciousDomains) :
    isSafeUrl "ftp://example.com".toList = false ∧
      isSafeUrl "https://example.com/page".toList = true ∧
      isSafeUrl "https://example.com/admin/x".toList = false ∧
      isSafeUrl u = false := by
  refine ⟨by decide, by decide, by decide, ?_⟩
  unfold isSafeUrl
  rw [hparse]
  simp [hdom]

theorem isSafeUrl_cases_witness :
    urlparseE (pyLower "ftp://malware.com/x".toList) =
        .ok ⟨"ftp".toList, "malware.com".toList, "/x".toList, [], [], []⟩ ∧
      ("malware.com".toList ∈ suspiciousDomains) ∧
      isSafeUrl "ftp://malware.com/x".toList = false :=
  ⟨by rfl, by decide,
    (isSafeUrl_cases "ftp://malware.com/x".toList
      ⟨"ftp".toList, "malware.com".toList, "/x".toList, [], [], []⟩
      (by rfl) (by decide)).2.2.2⟩

/-- C9: `is_safe_url` is a total boolean-valued function of the URL string,
and any input on which URL parsing raises (modelled as `Except.error`) is
classified unsafe. -/
theorem isSafeUrl_total (url : List Char) :
    (isSafeUrl url = true ∨ isSafeUrl url = false) ∧
      (∀ e, urlparseE (pyLower url) = .error e → isSafeUrl url = false) := by
  refine ⟨by cases h : isSafeUrl url with
    | true => exact Or.inl rfl
    | false => exact Or.inr rfl, fun e he => ?_⟩
  unfold isSafeUrl
  rw [he]

theorem isSafeUrl_total_witness :
    urlparseE (pyLower "http://[abc".toList) = .error () ∧
      isSafeUrl "http://[abc".toList = false :=
  ⟨by rfl, (isSafeUrl_total "http://[abc".toList).2 () (by rfl)⟩

/-- C10: the denylist check compares the full network-location component —
which includes an explicit port — against bare domain names, so
`https://malware.com:8080/` parses to netloc `malware.com:8080`, escapes the
denylist, and is accepted. -/
theorem isSafeUrl_denylist_port_bypass :
    (urlparseE (pyLower "https://malware.com:8080/".toList)).toOption.map
        UrlParts.netloc = some "malware.com:8080".toList ∧
      ("malware.com".toList ∈ suspiciousDomains) ∧
      ("malware.com:8080".toList ∉ suspiciousDomains) ∧
      isSafeUrl "https://malware.com:8080/".toList = true := by
  refine ⟨by rfl, by decide, by decide, by decide⟩

/-! ## DOM model (`scraper/web_scraper.py`)

`BeautifulSoup(response.content, html.parser)` yields a tree of elements
and text; `html.parser` is lenient and never raises, so a fetched document is
modelled directly as a tree.  Attribute values are kept as raw strings.
Traversals are in document (pre-)order, as in BeautifulSoup. -/

inductive Node where
  | text (s : List Char)
  | elem (tag : List Char) (attrs : List (List Char × List Char))
      (children : List Node)

/-- Attribute lookup, `element.get(name)`. -/
def attrOf (n : Node) (name : List Char) : Option (List Char) :=
  match n with
  | .text _ => none
  | .elem _ attrs _ => attrs.lookup name

mutual

/-- Python `element.get_text()`: the concatenation of all descendant strings. -/
def getText : Node → List Char
  | .text s => s
  | .elem _ _ cs => getTextList cs

def getTextList : List Node → List Char
  | [] => []
  | c :: cs => getText c ++ getTextList cs

end

/-- Python `str.isspace` characters in the ASCII range (used by `strip` and
the regex classes; the embedding covers ASCII text). -/
def pyIsSpace (c : Char) : Bool :=
  c = ' ' || c = '\t' || c = '\n' || c = '\r' || c = '\x0b' || c = '\x0c'

/-- Python `str.strip()`. -/
def pyStrip (s : List Char) : List Char :=
  ((s.dropWhile pyIsSpace).reverse.dropWhile pyIsSpace).reverse

/-- Whitespace-splitting of a `class` attribute into its tokens. -/
def splitWsAux : List Char → List Char → List (List Char)
  | [], acc => if acc.isEmpty then [] else [acc.reverse]
  | c :: rest, acc =>
      if pyIsSpace c then
        if acc.isEmpty then splitWsAux rest []
        else acc.reverse :: splitWsAux rest []
      else splitWsAux rest (c :: acc)

def splitWs (s : List Char) : List (List Char) := splitWsAux s []

/-! ### CSS selectors

The scraper uses only these selector shapes: a tag name (`h1`, `img`), a tag
with a required attribute (`a[href]`), an attribute-substring test
(`[class*="price"]`), attribute presence (`[data-price]`), a class token
(`.item`), and a single descendant combination of two of the simple shapes
(`[class*="image"] img`). -/

inductive SSel where
  | tagName (t : List Char)
  | tagAttr (t a : List Char)
  | attrSub (a v : List Char)
  | attrHas (a : List Char)
  | classTok (v : List Char)

inductive Sel where
  | simple (s : SSel)
  | desc (anc inner : SSel)

/-- Whether a single element node matches a simple selector. -/
def matchesSimple (s : SSel) (n : Node) : Bool :=
  match n with
  | .text _ => false
  | .elem t _ _ =>
      match s with
      | .tagName t2 => t = t2
      | .tagAttr t2 a => t = t2 && (attrOf n a).isSome
      | .attrSub a v =>
          match attrOf n a with
          | some w => containsSub v w
          | none => false
      | .attrHas a => (attrOf n a).isSome
      | .classTok v =>
          match attrOf n "class".toList with
          | some w => (splitWs w).contains v
          | none => false

/-- Whether a node with the given ancestor chain (nearest first) matches a
selector. -/
def matchesSel (s : Sel) (ancs : List Node) (n : Node) : Bool :=
  match s with
  | .simple s1 => matchesSimple s1 n
  | .desc anc inner => matchesSimple inner n && ancs.any (matchesSimple anc)

mutual

/-- All descendants of the nodes in the list (which have ancestors `ancs`)
matching `s`, in document order. -/
def selectList (s : Sel) (ancs : List Node) : List Node → List Node
  | [] => []
  | c :: rest =>
      (if matchesSel s ancs c then [c] else []) ++ selectInto s ancs c ++
        selectList s ancs rest

def selectInto (s : Sel) (ancs : List Node) : Node → List Node
  | .text _ => []
  | .elem t a cs => selectList s (.elem t a cs :: ancs) cs

end

/-- Model of `element.select(sel)`: matching descendants of `root` in document order
(the root itself is not a candidate, but can serve as an ancestor for a
descendant combinator). -/
def select (s : Sel) (root : Node) : List Node := selectInto s [] root

/-- Model of `element.select_one(sel)`. -/
def selectOne (s : Sel) (root : Node) : Option Node := (select s root).head?

mutual

/-- Model of `soup.find_all(pred)`: descendants satisfying `p`, document order. -/
def findAllInto (p : Node → Bool) : Node → List Node
  | .text _ => []
  | .elem _ _ cs => findAllList p cs

def findAllList (p : Node → Bool) : List Node → List Node
  | [] => []
  | c :: rest =>
      (if p c then [c] else []) ++ findAllInto p c ++ findAllList p rest

end

def findAll (p : Node → Bool) (root : Node) : List Node := findAllInto p root

/-- Model of `soup.find(pred)`: first match in document order. -/
def findFirst (p : Node → Bool) (root : Node) : Option Node :=
  (findAll p root).head?

/-- Element with the given tag name. -/
def tagIs (t : List Char) (n : Node) : Bool :=
  match n with
  | .text _ => false
  | .elem t2 _ _ => t2 = t

/-- Value computed by `urllib.parse.urljoin` on its non-raising path
(simplified: no dot-segment normalisation; no checked claim inspects
resolved URL values).  A reference with its own scheme is returned as is,
otherwise it is resolved against the base scheme, netloc and directory. -/
def urljoinVal (base rel : List Char) : List Char :=
  if (splitScheme rel).1 ≠ [] then rel
  else
    match rel, (splitScheme base).2 with
    | '/' :: '/' :: _, _ => (splitScheme base).1 ++ ':' :: rel
    | '/' :: r1, '/' :: '/' :: r =>
        (splitScheme base).1 ++ ':' :: '/' :: '/' ::
          (r.takeWhile notNetlocEnd ++ '/' :: r1)
    | _, '/' :: '/' :: r =>
        (splitScheme base).1 ++ ':' :: '/' :: '/' ::
          (r.takeWhile notNetlocEnd ++
            (splitLastSlash
              ((r.dropWhile notNetlocEnd).takeWhile
                (fun c => !(c = '?' || c = '#')))).1 ++ rel)
    | _, _ => rel

/-- Model of `urllib.parse.urljoin`, including its raising path.  Python
returns early on an empty (falsy) base or reference; otherwise it parses
both base and reference with `urlparse`, so a bracket-mismatched netloc in
either — such as the reference `//[` — raises the `ValueError` modelled by
`urlparseE`, and `urljoin` itself raises. -/
def urljoinE (base rel : List Char) : Except Unit (List Char) :=
  if base = [] then .ok rel
  else if rel = [] then .ok base
  else
    match urlparseE base, urlparseE rel with
    | .ok _, .ok _ => .ok (urljoinVal base rel)
    | _, _ => .error ()

/-! ## `WebScraper.scrape_page_info` -/

structure ImageRec where
  url : List Char
  alt : List Char
  title : List Char
  deriving Repr, DecidableEq

structure LinkRec where
  url : List Char
  text : List Char
  title : List Char
  deriving Repr, DecidableEq

structure HeadingRec where
  level : Nat
  text : List Char
  deriving Repr, DecidableEq

structure PageInfo where
  url : List Char
  title : List Char
  description : List Char
  images : List ImageRec
  links : List LinkRec
  headings : List HeadingRec
  deriving Repr, DecidableEq

/-- A scrape result: the success payload, or the error dict carrying the
transport error message (`str(e)`).  `scraped_at` (a wall-clock timestamp)
is not modelled. -/
inductive PageResult where
  | success (p : PageInfo)
  | failure (url errMsg : List Char)
  deriving Repr, DecidableEq

/-- The predicate for a meta element whose name attribute equals
description, as passed to `soup.find` by `scrape_page_info`. -/
def isMetaDescription (n : Node) : Bool :=
  tagIs "meta".toList n &&
    attrOf n "name".toList == some "description".toList

/-- The tag names h1 through h6 built by the loop over `i in range(1, 7)`,
in that order. -/
def headingTags : List (Nat × List Char) :=
  [(1, "h1".toList), (2, "h2".toList), (3, "h3".toList),
    (4, "h4".toList), (5, "h5".toList), (6, "h6".toList)]

/-- The `soup.find_all('img', src=True)` predicate. -/
def imgWithSrc (n : Node) : Bool :=
  tagIs "img".toList n && (attrOf n "src".toList).isSome

/-- The `soup.find_all('a', href=True)` predicate. -/
def aWithHref (n : Node) : Bool :=
  tagIs "a".toList n && (attrOf n "href".toList).isSome

/-- One iteration of the image loop of `scrape_page_info`: resolving the
`src` can raise through `urljoin`. -/
def imgEntry (url : List Char) (n : Node) : Except Unit ImageRec :=
  (urljoinE url ((attrOf n "src".toList).getD [])).map fun u2 =>
    ImageRec.mk u2 ((attrOf n "alt".toList).getD [])
      ((attrOf n "title".toList).getD [])

/-- One iteration of the link loop of `scrape_page_info`. -/
def linkEntry (url : List Char) (n : Node) : Except Unit LinkRec :=
  (urljoinE url ((attrOf n "href".toList).getD [])).map fun u2 =>
    LinkRec.mk u2 (pyStrip (getText n)) ((attrOf n "title".toList).getD [])

/-- Model of `WebScraper.scrape_page_info(url)`.  The fetch
(`self.session.get(url, timeout=30)` + `raise_for_status`) is an external
collaborator, passed in as its outcome: a parsed document or a transport
error message.  The surrounding `try` catches only
`requests.exceptions.RequestException`, so a `ValueError` raised by
`urljoin` while resolving an image or link reference escapes the function:
that uncaught-exception outcome is the outer `Except.error`, distinct from
the error-status dict `PageResult.failure`. -/
def scrapePageInfo (fetch : Except (List Char) Node) (url : List Char) :
    Except Unit PageResult :=
  match fetch with
  | .error e => .ok (.failure url e)
  | .ok doc =>
      let title :=
        match findFirst (tagIs "title".toList) doc with
        | some t => pyStrip (getText t)
        | none => "Sem título".toList
      let description :=
        match findFirst isMetaDescription doc with
        | some m => pyStrip ((attrOf m "content".toList).getD [])
        | none => "No description".toList
      match (findAll imgWithSrc doc).mapM (imgEntry url) with
      | .error e => .error e
      | .ok images =>
          match (findAll aWithHref doc).mapM (linkEntry url) with
          | .error e => .error e
          | .ok links =>
              let headings :=
                headingTags.flatMap fun it =>
                  (findAll (tagIs it.2) doc).map fun n =>
                    HeadingRec.mk it.1 (pyStrip (getText n))
              .ok (.success ⟨url, title, description, images.take 10,
                links.take 20, headings⟩)

/-! ## `WebScraper.extract_product_info` -/

structure Product where
  name : List Char
  price : List Char
  image : List Char
  link : List Char
  deriving Repr, DecidableEq

/-- The `name_selectors` list, in source order. -/
def nameSelectors : List Sel :=
  [.simple (.tagName "h1".toList), .simple (.tagName "h2".toList),
    .simple (.tagName "h3".toList),
    .simple (.attrSub "class".toList "title".toList),
    .simple (.attrSub "class".toList "name".toList),
    .simple (.attrSub "class".toList "product-name".toList),
    .simple (.attrSub "class".toList "product-title".toList),
    .simple (.attrSub "id".toList "title".toList),
    .simple (.attrSub "id".toList "name".toList),
    .simple (.attrSub "id".toList "product-name".toList),
    .simple (.attrSub "id".toList "product-title".toList)]

/-- The `price_selectors` list, in source order. -/
def priceSelectors : List Sel :=
  [.simple (.attrSub "class".toList "price".toList),
    .simple (.attrSub "id".toList "price".toList),
    .simple (.attrHas "data-price".toList),
    .simple (.attrSub "class".toList "cost".toList),
    .simple (.attrSub "id".toList "cost".toList),
    .simple (.attrSub "class".toList "amount".toList),
    .simple (.attrSub "id".toList "amount".toList),
    .simple (.classTok "product-price".toList),
    .simple (.classTok "price".toList), .simple (.classTok "cost".toList),
    .simple (.classTok "amount".toList)]

/-- The `image_selectors` list, in source order. -/
def imageSelectors : List Sel :=
  [.simple (.tagName "img".toList),
    .desc (.attrSub "class".toList "image".toList) (.tagName "img".toList),
    .desc (.attrSub "class".toList "img".toList) (.tagName "img".toList),
    .desc (.attrSub "class".toList "product-image".toList)
      (.tagName "img".toList),
    .desc (.attrSub "class".toList "thumb".toList) (.tagName "img".toList),
    .simple (.attrHas "data-src".toList),
    .simple (.attrHas "data-original".toList)]

/-- The `link_selectors` list, in source order. -/
def linkSelectors : List Sel :=
  [.simple (.tagAttr "a".toList "href".toList),
    .desc (.attrSub "class".toList "link".toList)
      (.tagAttr "a".toList "href".toList),
    .desc (.attrSub "class".toList "product-link".toList)
      (.tagAttr "a".toList "href".toList),
    .desc (.attrSub "class".toList "title".toList)
      (.tagAttr "a".toList "href".toList),
    .desc (.attrSub "class".toList "name".toList)
      (.tagAttr "a".toList "href".toList)]

/-! ### The price pattern

The regex search `re.search` with pattern
`([A-Za-z]{0,3}\$|€|£|¥|₹)\s*[\d.,]+` applied to the text: at each position
(leftmost first) the alternation tries up to three ASCII letters followed by
`$` (greedy, and at any given position at most one letter count can place the
`$`, so no backtracking interplay arises), else one of the four plain
currency symbols; then greedy whitespace; then at least one of digit, `.`,
`,`.  `\d`/`\s` are modelled on their ASCII fragments. -/

def isAmountChar (c : Char) : Bool := c.isDigit || c = '.' || c = ','

/-- Exactly `k` ASCII letters followed by `$`; returns the consumed prefix
and the remainder. -/
def alphaPrefixDollar : Nat → List Char → Option (List Char × List Char)
  | 0, '$' :: rest => some (['$'], rest)
  | 0, _ => none
  | _ + 1, [] => none
  | k + 1, c :: rest =>
      if c.isAlpha then
        match alphaPrefixDollar k rest with
        | some p => some (c :: p.1, p.2)
        | none => none
      else none

/-- The currency-symbol alternation at the current position. -/
def symbolAt (l : List Char) : Option (List Char × List Char) :=
  match alphaPrefixDollar 3 l with
  | some p => some p
  | none =>
      match alphaPrefixDollar 2 l with
      | some p => some p
      | none =>
          match alphaPrefixDollar 1 l with
          | some p => some p
          | none =>
              match alphaPrefixDollar 0 l with
              | some p => some p
              | none =>
                  match l with
                  | c :: rest =>
                      if c = '€' || c = '£' || c = '¥' || c = '₹' then
                        some ([c], rest)
                      else none
                  | [] => none

/-- The whole pattern anchored at the current position. -/
def matchAt (l : List Char) : Option (List Char) :=
  match symbolAt l with
  | none => none
  | some p =>
      let ws := p.2.takeWhile pyIsSpace
      let amt := (p.2.dropWhile pyIsSpace).takeWhile isAmountChar
      if amt.isEmpty then none else some (p.1 ++ ws ++ amt)

/-- Python `re.search(...).group()`: the leftmost match, if any. -/
def priceSearch : List Char → Option (List Char)
  | [] => none
  | c :: rest =>
      match matchAt (c :: rest) with
      | some m => some m
      | none => priceSearch rest

example : priceSearch "R$ 99,90 à vista".toList = some "R$ 99,90".toList := by
  decide
example : priceSearch "Call us".toList = none := by decide
example : priceSearch "USD$ 1,299.99".toList = some "USD$ 1,299.99".toList := by
  decide
example : priceSearch "price: €15".toList = some "€15".toList := by decide

/-! ### The per-field cascades of `extract_product_info` -/

/-- The name loop: stop at the first selector that finds an element at all
(even one with empty text). -/
def findBySelectors (sels : List Sel) (el : Node) : Option Node :=
  match sels with
  | [] => none
  | s :: rest =>
      match selectOne s el with
      | some e => some e
      | none => findBySelectors rest el

/-- The price loop: stop only at the first selector whose found element has
stripped text matching the price pattern. -/
def priceFrom (sels : List Sel) (el : Node) : List Char :=
  match sels with
  | [] => []
  | s :: rest =>
      match selectOne s el with
      | some e =>
          match priceSearch (pyStrip (getText e)) with
          | some m => m
          | none => priceFrom rest el
      | none => priceFrom rest el

/-- Python truthiness for the `src or data-src or data-original` chain:
an empty attribute value is falsy. -/
def truthyAttr (n : Node) (a : List Char) : Option (List Char) :=
  match attrOf n a with
  | some [] => none
  | some s => some s
  | none => none

/-- The image loop: stop at the first selector whose found element carries a
truthy `src`/`data-src`/`data-original`; resolving it can raise through
`urljoin`. -/
def imageFrom (sels : List Sel) (el : Node) (base : List Char) :
    Except Unit (List Char) :=
  match sels with
  | [] => .ok []
  | s :: rest =>
      match selectOne s el with
      | some e =>
          match truthyAttr e "src".toList <|> truthyAttr e "data-src".toList
              <|> truthyAttr e "data-original".toList with
          | some src => urljoinE base src
          | none => imageFrom rest el base
      | none => imageFrom rest el base

/-- The link loop: stop at the first selector that finds an element;
resolving its `href` can raise through `urljoin`. -/
def linkFrom (sels : List Sel) (el : Node) (base : List Char) :
    Except Unit (List Char) :=
  match sels with
  | [] => .ok []
  | s :: rest =>
      match selectOne s el with
      | some e => urljoinE base ((attrOf e "href".toList).getD [])
      | none => linkFrom rest el base

/-- Model of `WebScraper.extract_product_info(element, base_url)`: the four
cascades, then `if name: return {...}` — a candidate whose name came up
empty (or was never found) yields `None`.  The body sits in a broad
`try ... except Exception: return None`, so a `ValueError` raised by
`urljoin` in the image or link cascade also yields `None`. -/
def extractProductInfo (el : Node) (baseUrl : List Char) : Option Product :=
  let name :=
    match findBySelectors nameSelectors el with
    | some e => pyStrip (getText e)
    | none => []
  let price := priceFrom priceSelectors el
  match imageFrom imageSelectors el baseUrl with
  | .error _ => none
  | .ok image =>
      match linkFrom linkSelectors el baseUrl with
      | .error _ => none
      | .ok link => if name ≠ [] then some ⟨name, price, image, link⟩
        else none

/-! ## `WebScraper.scrape_products_generic` -/

structure ProductsPayload where
  url : List Char
  products : List Product
  totalFound : Nat
  deriving Repr, DecidableEq

inductive ProductsResult where
  | success (p : ProductsPayload)
  | failure (url errMsg : List Char)
  deriving Repr, DecidableEq

/-- The `product_selectors` list, in source order. -/
def productSelectors : List Sel :=
  [.simple (.attrSub "class".toList "product".toList),
    .simple (.attrSub "id".toList "product".toList),
    .simple (.attrHas "data-product-id".toList),
    .simple (.classTok "item".toList)]

/-- The container-discovery loop: the first selector with at least one match
wins; matches are never merged across selectors. -/
def firstNonEmptySelect (sels : List Sel) (doc : Node) : List Node :=
  match sels with
  | [] => []
  | s :: rest =>
      match select s doc with
      | [] => firstNonEmptySelect rest doc
      | es => es

/-- Model of `WebScraper.scrape_products_generic(url)`: on a successful
fetch, take
the first 10 discovered containers, extract each, keep the non-`None`
products, and report `total_found = len(products)`. -/
def scrapeProductsGeneric (fetch : Except (List Char) Node)
    (url : List Char) : ProductsResult :=
  match fetch with
  | .error e => .failure url e
  | .ok doc =>
      let els := firstNonEmptySelect productSelectors doc
      let products := (els.take 10).filterMap fun el =>
        extractProductInfo el url
      .success ⟨url, products, products.length⟩

/-! ### Concrete documents used by the claims -/

/-- A container whose first price-like element (by cascade order) has no
price pattern in its text, while an element of a later selector has one. -/
def cxC3 : Node :=
  .elem "div".toList []
    [.elem "h2".toList [] [.text "Widget".toList],
      .elem "span".toList [("class".toList, "price".toList)]
        [.text "Call us".toList],
      .elem "span".toList [("class".toList, "cost".toList)]
        [.text "$ 5".toList]]

example : (extractProductInfo cxC3 "http://s".toList).map Product.price =
    some "$ 5".toList := by decide

example : findBySelectors priceSelectors cxC3 =
    some (.elem "span".toList [("class".toList, "price".toList)]
      [.text "Call us".toList]) := by rfl

/-- A document whose `<h2>` precedes its `<h1>`. -/
def docC6 : Node :=
  .elem "html".toList []
    [.elem "h2".toList [] [.text "b".toList],
      .elem "h1".toList [] [.text "a".toList]]

example : scrapePageInfo (.ok docC6) "u".toList =
    .ok (.success ⟨"u".toList, "Sem título".toList, "No description".toList,
      [], [], [⟨1, "a".toList⟩, ⟨2, "b".toList⟩]⟩) := by rfl

/-- A product container parametrised by the text of its price element. -/
def priceContainer (s : List Char) : Node :=
  .elem "div".toList []
    [.elem "h3".toList [] [.text "N".toList],
      .elem "span".toList [("class".toList, "price".toList)] [.text s]]

example : (extractProductInfo (priceContainer "R$ 99,90 à vista".toList)
    "http://s".toList).map Product.price = some "R$ 99,90".toList := by decide

/-- A document with two `.item` candidates, one of which has no name. -/
def docC5 : Node :=
  .elem "html".toList []
    [.elem "div".toList [("class".toList, "item".toList)]
      [.elem "h2".toList [] [.text "A".toList],
        .elem "span".toList [("class".toList, "price".toList)]
          [.text "$1".toList]],
      .elem "div".toList [("class".toList, "item".toList)]
        [.elem "span".toList [("class".toList, "price".toList)]
          [.text "$2".toList]]]

example : scrapeProductsGeneric (.ok docC5) "u".toList =
    .success ⟨"u".toList,
      [⟨"A".toList, "$1".toList, [], []⟩], 1⟩ := by decide

theorem scrapePageInfo_ok_eq (doc : Node) (url : List Char) :
    scrapePageInfo (.ok doc) url =
      match (findAll imgWithSrc doc).mapM (imgEntry url) with
      | .error e => .error e
      | .ok images =>
          match (findAll aWithHref doc).mapM (linkEntry url) with
          | .error e => .error e
          | .ok links =>
              .ok (.success ⟨url,
                (match findFirst (tagIs "title".toList) doc with
                  | some t => pyStrip (getText t)
                  | none => "Sem título".toList),
                (match findFirst isMetaDescription doc with
                  | some m => pyStrip ((attrOf m "content".toList).getD [])
                  | none => "No description".toList),
                images.take 10, links.take 20,
                headingTags.flatMap fun it =>
                  (findAll (tagIs it.2) doc).map fun n =>
                    HeadingRec.mk it.1 (pyStrip (getText n))⟩) := rfl

theorem mapM_ok_of_forall {α β : Type} (f : α → Except Unit β) :
    ∀ l : List α, (∀ x ∈ l, (f x).toOption.isSome = true) →
      ∃ ys, l.mapM f = .ok ys := by
  intro l
  induction l with
  | nil => intro _; exact ⟨[], rfl⟩
  | cons x xs ih =>
      intro h
      obtain ⟨y, hy⟩ : ∃ y, f x = .ok y := by
        cases hfx : f x with
        | ok y => exact ⟨y, rfl⟩
        | error e =>
            have := h x (by simp)
            rw [hfx] at this
            simp [Except.toOption] at this
      obtain ⟨ys, hys⟩ := ih fun z hz => h z (by simp [hz])
      refine ⟨y :: ys, ?_⟩
      rw [List.mapM_cons, hy, hys]
      rfl

/-- A fetched document carrying a reference on which `urljoin` raises: the
anchor href `//[` parses to the bracket-mismatched netloc `[`. -/
def docC7bad : Node :=
  .elem "html".toList []
    [.elem "a".toList [("href".toList, "//[".toList)] []]

/-- C7 counterexample: the claim says any successfully fetched document
yields a success-status `PageInfo`, never an error — but on `docC7bad`
(fetch succeeded) `scrape_page_info` neither returns the success payload nor
the error-status dict: the `ValueError` raised by `urljoin` on the href
`//[` escapes the `except RequestException` clause, the `Except.error`
outcome. -/
theorem scrapePageInfo_valueerror_counterexample :
    scrapePageInfo (.ok docC7bad) "http://e".toList = .error () ∧
      (∀ p, scrapePageInfo (.ok docC7bad) "http://e".toList ≠
        .ok (.success p)) ∧
      (∀ e, scrapePageInfo (.ok docC7bad) "http://e".toList ≠
        .ok (.failure "http://e".toList e)) :=
  ⟨rfl, fun _p h => Except.noConfusion h, fun _e h => Except.noConfusion h⟩

/-- C7 (amended): `scrape_page_info` yields the error-status dict (carrying
the transport error message) exactly when the fetch fails; on a successfully
fetched document in which every image `src` and anchor `href` resolves
against the page URL without a `urljoin` parse error (in particular any
document free of bracket-mismatched references), it yields a success-status
`PageInfo`, with the placeholder title when no `<title>` element exists and
the placeholder description when no `meta[name=description]` element
exists.  A document with a raising reference instead escapes as an uncaught
`ValueError`. -/
theorem scrapePageInfo_error_iff_fetch (fetch : Except (List Char) Node)
    (url : List Char) :
    (∀ e, scrapePageInfo fetch url = .ok (.failure url e) ↔
        fetch = .error e) ∧
      (∀ doc, fetch = .ok doc →
        (∀ n ∈ findAll imgWithSrc doc,
          (urljoinE url ((attrOf n "src".toList).getD [])).toOption.isSome =
            true) →
        (∀ n ∈ findAll aWithHref doc,
          (urljoinE url ((attrOf n "href".toList).getD [])).toOption.isSome =
            true) →
        ∃ p, scrapePageInfo fetch url = .ok (.success p) ∧
          (findFirst (tagIs "title".toList) doc = none →
            p.title = "Sem título".toList) ∧
          (findFirst isMetaDescription doc = none →
            p.description = "No description".toList)) := by
  cases fetch with
  | error e0 =>
      refine ⟨fun e => ?_, fun doc h => absurd h (by simp)⟩
      simp [scrapePageInfo]
  | ok doc0 =>
      constructor
      · intro e
        constructor
        · intro h
          rw [scrapePageInfo_ok_eq] at h
          cases himg : (findAll imgWithSrc doc0).mapM (imgEntry url) with
          | error e2 => simp only [himg] at h; exact Except.noConfusion h
          | ok images =>
              simp only [himg] at h
              cases hlnk : (findAll aWithHref doc0).mapM (linkEntry url) with
              | error e2 => simp only [hlnk] at h; exact Except.noConfusion h
              | ok links => simp only [hlnk] at h; simp at h
        · intro h
          exact absurd h (by simp)
      · intro doc h himgok hlnkok
        obtain rfl : doc0 = doc := by injection h
        have himg' : ∀ n ∈ findAll imgWithSrc doc0,
            ((imgEntry url n).toOption.isSome = true) := by
          intro n hn
          have hu := himgok n hn
          unfold imgEntry
          cases hj : urljoinE url ((attrOf n "src".toList).getD []) with
          | ok v => rfl
          | error e2 => rw [hj] at hu; simp [Except.toOption] at hu
        have hlnk' : ∀ n ∈ findAll aWithHref doc0,
            ((linkEntry url n).toOption.isSome = true) := by
          intro n hn
          have hu := hlnkok n hn
          unfold linkEntry
          cases hj : urljoinE url ((attrOf n "href".toList).getD []) with
          | ok v => rfl
          | error e2 => rw [hj] at hu; simp [Except.toOption] at hu
        obtain ⟨images, himg⟩ := mapM_ok_of_forall (imgEntry url) _ himg'
        obtain ⟨links, hlnk⟩ := mapM_ok_of_forall (linkEntry url) _ hlnk'
        have hres := scrapePageInfo_ok_eq doc0 url
        simp only [himg, hlnk] at hres
        refine ⟨_, hres, fun ht => ?_, fun hd => ?_⟩
        · rw [ht]
        · rw [hd]

theorem scrapePageInfo_error_iff_fetch_witness :
    (scrapePageInfo (.error "boom".toList) "u".toList =
        .ok (.failure "u".toList "boom".toList)) ∧
      (∀ n ∈ findAll imgWithSrc docC6,
        (urljoinE "u".toList ((attrOf n "src".toList).getD
          [])).toOption.isSome = true) ∧
      (∀ n ∈ findAll aWithHref docC6,
        (urljoinE "u".toList ((attrOf n "href".toList).getD
          [])).toOption.isSome = true) ∧
      (∃ p, scrapePageInfo (.ok docC6) "u".toList = .ok (.success p) ∧
        (findFirst (tagIs "title".toList) docC6 = none →
          p.title = "Sem título".toList) ∧
        (findFirst isMetaDescription docC6 = none →
          p.description = "No description".toList)) :=
  ⟨((scrapePageInfo_error_iff_fetch (.error "boom".toList)
      "u".toList).1 "boom".toList).mpr rfl,
    by decide, by decide,
    (scrapePageInfo_error_iff_fetch (.ok docC6) "u".toList).2 docC6 rfl
      (by decide) (by decide)⟩

theorem extract_some_name (el : Node) (u : List Char) (p : Product)
    (h : extractProductInfo el u = some p) : p.name ≠ [] := by
  simp only [extractProductInfo] at h
  cases himg : imageFrom imageSelectors el u with
  | error e => simp only [himg] at h; exact Option.noConfusion h
  | ok image =>
      simp only [himg] at h
      cases hlnk : linkFrom linkSelectors el u with
      | error e => simp only [hlnk] at h; exact Option.noConfusion h
      | ok link =>
          simp only [hlnk] at h
          split at h
          · next hne =>
              cases h
              exact hne
          · exact absurd h (by simp)

theorem findBySelectors_mem (el : Node) :
    ∀ (sels : List Sel) (e : Node), findBySelectors sels el = some e →
      ∃ s ∈ sels, selectOne s el = some e := by
  intro sels
  induction sels with
  | nil => intro e h; exact absurd h (by simp [findBySelectors])
  | cons s rest ih =>
      intro e h
      simp only [findBySelectors] at h
      cases hs : selectOne s el with
      | some e2 =>
          rw [hs] at h
          cases h
          exact ⟨s, by simp, hs⟩
      | none =>
          rw [hs] at h
          obtain ⟨s2, hs2, hsel⟩ := ih e h
          exact ⟨s2, by simp [hs2], hsel⟩

/-- C5: every product in a successful `scrape_products_generic` result has a
non-empty name, `total_found` is the length of the product list after the
filtering, and a candidate container on which every name selector comes up
empty is omitted (`extract_product_info` returns `None`). -/
theorem products_all_named :
    (∀ doc url pl, scrapeProductsGeneric (.ok doc) url = .success pl →
        pl.totalFound = pl.products.length ∧
          ∀ p ∈ pl.products, p.name ≠ []) ∧
      (∀ el u, (∀ s ∈ nameSelectors,
          ((selectOne s el).all fun e => (pyStrip (getText e)).isEmpty) =
            true) →
        extractProductInfo el u = none) := by
  constructor
  · intro doc url pl h
    simp only [scrapeProductsGeneric] at h
    cases h
    refine ⟨rfl, fun p hp => ?_⟩
    rw [List.mem_filterMap] at hp
    obtain ⟨el, _, hel⟩ := hp
    exact extract_some_name el url p hel
  · intro el u hall
    simp only [extractProductInfo]
    cases himg : imageFrom imageSelectors el u with
    | error e => rfl
    | ok image =>
        cases hlnk : linkFrom linkSelectors el u with
        | error e => rfl
        | ok link =>
            cases hfb : findBySelectors nameSelectors el with
            | none => simp
            | some e =>
                obtain ⟨s, hs, hsel⟩ :=
                  findBySelectors_mem el nameSelectors e hfb
                have he : (pyStrip (getText e)).isEmpty = true := by
                  have := hall s hs
                  rw [hsel] at this
                  simpa [Option.all] using this
                rw [List.isEmpty_iff] at he
                simp [he]

theorem products_all_named_witness :
    (scrapeProductsGeneric (.ok docC5) "u".toList =
        .success ⟨"u".toList, [⟨"A".toList, "$1".toList, [], []⟩], 1⟩) ∧
      ((⟨"u".toList, [⟨"A".toList, "$1".toList, [], []⟩], 1⟩ :
          ProductsPayload).totalFound =
        (⟨"u".toList, [⟨"A".toList, "$1".toList, [], []⟩], 1⟩ :
          ProductsPayload).products.length ∧
        ∀ p ∈ (⟨"u".toList, [⟨"A".toList, "$1".toList, [], []⟩], 1⟩ :
          ProductsPayload).products, p.name ≠ []) ∧
      extractProductInfo
        (.elem "div".toList [("class".toList, "item".toList)]
          [.elem "span".toList [("class".toList, "price".toList)]
            [.text "$2".toList]]) "u".toList = none :=
  ⟨by decide,
    products_all_named.1 docC5 "u".toList _ (by decide),
    products_all_named.2 _ "u".toList (by decide)⟩

theorem sorted_of_const (i : Nat) :
    ∀ (xs : List Nat), (∀ x ∈ xs, x = i) → xs.Sorted (· ≤ ·) := by
  intro xs
  induction xs with
  | nil => intro _; simp
  | cons a rest ih =>
      intro h
      rw [List.sorted_cons]
      refine ⟨fun b hb => ?_, ih fun x hx => h x (by simp [hx])⟩
      rw [h a (by simp), h b (by simp [hb])]

theorem heading_levels_sorted (doc : Node) :
    ∀ (tags : List (Nat × List Char)),
      tags.Pairwise (fun a b => a.1 ≤ b.1) →
      ((tags.flatMap fun it => (findAll (tagIs it.2) doc).map fun n =>
          HeadingRec.mk it.1 (pyStrip (getText n))).map
        HeadingRec.level).Sorted (· ≤ ·) := by
  intro tags
  induction tags with
  | nil => intro _; simp
  | cons it rest ih =>
      intro hp
      rw [List.flatMap_cons, List.map_append]
      refine List.pairwise_append.2 ⟨?_, ih (List.pairwise_cons.1 hp).2, ?_⟩
      · apply sorted_of_const it.1
        intro x hx
        simp only [List.map_map, List.mem_map] at hx
        obtain ⟨n, _, rfl⟩ := hx
        rfl
      · intro x hx y hy
        simp only [List.map_map, List.mem_map] at hx
        obtain ⟨n, _, rfl⟩ := hx
        rw [List.mem_map] at hy
        obtain ⟨h2, hh, rfl⟩ := hy
        rw [List.mem_flatMap] at hh
        obtain ⟨it2, hit2, hmem⟩ := hh
        rw [List.mem_map] at hmem
        obtain ⟨n2, _, rfl⟩ := hmem
        exact (List.pairwise_cons.1 hp).1 it2 hit2

/-- C6: the headings sequence lists levels in non-decreasing order (all `h1`
elements first, then `h2`, through `h6`); in particular a document whose
`<h2>` precedes its `<h1>` still reports the `h1` entry first. -/
theorem headings_level_ordered :
    (∀ doc url p, scrapePageInfo (.ok doc) url = .ok (.success p) →
        (p.headings.map HeadingRec.level).Sorted (· ≤ ·)) ∧
      scrapePageInfo (.ok docC6) "u".toList =
        .ok (.success ⟨"u".toList, "Sem título".toList,
          "No description".toList, [], [],
          [⟨1, "a".toList⟩, ⟨2, "b".toList⟩]⟩) := by
  constructor
  · intro doc url p h
    rw [scrapePageInfo_ok_eq] at h
    cases himg : (findAll imgWithSrc doc).mapM (imgEntry url) with
    | error e => simp only [himg] at h; exact Except.noConfusion h
    | ok images =>
        simp only [himg] at h
        cases hlnk : (findAll aWithHref doc).mapM (linkEntry url) with
        | error e => simp only [hlnk] at h; exact Except.noConfusion h
        | ok links =>
            simp only [hlnk] at h
            injection h with h1
            injection h1 with h2
            subst h2
            exact heading_levels_sorted doc headingTags (by decide)
  · rfl

theorem headings_level_ordered_witness :
    (scrapePageInfo (.ok docC6) "u".toList =
        .ok (.success ⟨"u".toList, "Sem título".toList,
          "No description".toList, [], [],
          [⟨1, "a".toList⟩, ⟨2, "b".toList⟩]⟩)) ∧
      (((⟨"u".toList, "Sem título".toList, "No description".toList, [], [],
          [⟨1, "a".toList⟩, ⟨2, "b".toList⟩]⟩ : PageInfo).headings.map
        HeadingRec.level).Sorted (· ≤ ·)) :=
  ⟨by rfl, headings_level_ordered.1 docC6 "u".toList _ (by rfl)⟩

theorem matchAt_none (l : List Char) (h : symbolAt l = none) :
    matchAt l = none := by
  unfold matchAt
  rw [h]

theorem matchAt_some_eq (l : List Char) (p : List Char × List Char)
    (h : symbolAt l = some p) :
    matchAt l =
      if ((p.2.dropWhile pyIsSpace).takeWhile isAmountChar).isEmpty then none
      else some (p.1 ++ p.2.takeWhile pyIsSpace ++
        (p.2.dropWhile pyIsSpace).takeWhile isAmountChar) := by
  unfold matchAt
  rw [h]

theorem matchAt_some_ne_nil (l m : List Char) (h : matchAt l = some m) :
    m ≠ [] := by
  cases hsym : symbolAt l with
  | none => rw [matchAt_none l hsym] at h; exact Option.noConfusion h
  | some p =>
      rw [matchAt_some_eq l p hsym] at h
      by_cases hb :
          ((p.2.dropWhile pyIsSpace).takeWhile isAmountChar).isEmpty = true
      · rw [if_pos hb] at h
        exact Option.noConfusion h
      · rw [if_neg hb] at h
        have h2 := Option.some.inj h
        intro hm
        rw [hm, List.append_eq_nil, List.append_eq_nil] at h2
        exact hb (by rw [List.isEmpty_iff]; exact h2.2)

theorem priceSearch_some_ne_nil :
    ∀ (l m : List Char), priceSearch l = some m → m ≠ []
  | [], m, h => absurd h (by simp [priceSearch])
  | c :: rest, m, h => by
      simp only [priceSearch] at h
      cases hm : matchAt (c :: rest) with
      | some m2 =>
          rw [hm] at h
          cases h
          exact matchAt_some_ne_nil _ _ hm
      | none =>
          rw [hm] at h
          exact priceSearch_some_ne_nil rest m h

theorem priceFrom_eq_nil_iff (el : Node) :
    ∀ (sels : List Sel), priceFrom sels el = [] ↔
      ∀ s ∈ sels, ((selectOne s el).all fun e =>
        (priceSearch (pyStrip (getText e))).isNone) = true := by
  intro sels
  induction sels with
  | nil => simp [priceFrom]
  | cons s rest ih =>
      simp only [priceFrom]
      cases hs : selectOne s el with
      | none => simp [hs, ih, List.forall_mem_cons, Option.all]
      | some e =>
          cases hps : priceSearch (pyStrip (getText e)) with
          | some m =>
              have hne := priceSearch_some_ne_nil _ _ hps
              simp [hs, hps, hne, List.forall_mem_cons, Option.all]
          | none => simp [hs, hps, ih, List.forall_mem_cons, Option.all]

/-- C3 counterexample: in `cxC3` the first price-like element found by the
ordered cascade is the `class="price"` span, whose text matches no currency
pattern — yet the extracted price is `"$ 5"` (found by the later
`[class*="cost"]` selector), not the empty string the claim requires. -/
theorem price_cascade_counterexample :
    findBySelectors priceSelectors cxC3 =
        some (.elem "span".toList [("class".toList, "price".toList)]
          [.text "Call us".toList]) ∧
      priceSearch (pyStrip (getText (.elem "span".toList
        [("class".toList, "price".toList)] [.text "Call us".toList]))) =
        none ∧
      (extractProductInfo cxC3 "http://s".toList).map Product.price =
        some "$ 5".toList ∧
      "$ 5".toList ≠ [] :=
  ⟨by rfl, by decide, by decide, by decide⟩

/-- C3 (amended): a found price element whose text has no currency pattern
does not stop the cascade — later selectors are still consulted; the
extracted price is empty exactly when no selector in the cascade finds an
element whose stripped text matches the pattern. -/
theorem price_empty_iff_no_selector_match (el : Node) (u : List Char)
    (p : Product) (h : extractProductInfo el u = some p) :
    p.price = [] ↔ ∀ s ∈ priceSelectors,
      ((selectOne s el).all fun e =>
        (priceSearch (pyStrip (getText e))).isNone) = true := by
  have hp : p.price = priceFrom priceSelectors el := by
    simp only [extractProductInfo] at h
    cases himg : imageFrom imageSelectors el u with
    | error e => simp only [himg] at h; exact Option.noConfusion h
    | ok image =>
        simp only [himg] at h
        cases hlnk : linkFrom linkSelectors el u with
        | error e => simp only [hlnk] at h; exact Option.noConfusion h
        | ok link =>
            simp only [hlnk] at h
            split at h
            · cases h; rfl
            · exact absurd h (by simp)
  rw [hp]
  exact priceFrom_eq_nil_iff el priceSelectors

/-- A container with a name but whose only price-like element has no
pattern in its text. -/
def noPriceC : Node :=
  .elem "div".toList []
    [.elem "h2".toList [] [.text "W".toList],
      .elem "span".toList [("class".toList, "price".toList)]
        [.text "Call us".toList]]

theorem price_empty_iff_no_selector_match_witness :
    (extractProductInfo noPriceC "u".toList =
        some ⟨"W".toList, [], [], []⟩) ∧
      ((⟨"W".toList, [], [], []⟩ : Product).price = [] ↔
        ∀ s ∈ priceSelectors,
          ((selectOne s noPriceC).all fun e =>
            (priceSearch (pyStrip (getText e))).isNone) = true) :=
  ⟨by decide,
    price_empty_iff_no_selector_match noPriceC "u".toList _ (by decide)⟩

theorem takeWhile_cons_false {p : Char → Bool} (c : Char) (l : List Char)
    (hc : p c = false) : (c :: l).takeWhile p = [] := by
  simp [List.takeWhile_cons, hc]

theorem priceSearch_rdollar (t : List Char)
    (ht : t = [] ∨ ∃ c t2, t = c :: t2 ∧ isAmountChar c = false) :
    priceSearch ("R$ 99,90".toList ++ t) = some "R$ 99,90".toList := by
  rcases ht with rfl | ⟨c, t2, rfl, hc⟩
  · decide
  · have key : priceSearch ("R$ 99,90".toList ++ (c :: t2)) =
        some ('R' :: '$' :: ' ' :: '9' :: '9' :: ',' :: '9' :: '0' ::
          List.takeWhile isAmountChar (c :: t2)) := rfl
    rw [key, takeWhile_cons_false c t2 hc]
    rfl

theorem priceFrom_cons_eq (s1 : Sel) (rest : List Sel) (el : Node) :
    priceFrom (s1 :: rest) el =
      match selectOne s1 el with
      | some e =>
          match priceSearch (pyStrip (getText e)) with
          | some m => m
          | none => priceFrom rest el
      | none => priceFrom rest el := rfl

theorem priceFrom_first_match (s1 : Sel) (rest : List Sel) (el e : Node)
    (m : List Char) (hsel : selectOne s1 el = some e)
    (hm : priceSearch (pyStrip (getText e)) = some m) :
    priceFrom (s1 :: rest) el = m := by
  simp only [priceFrom_cons_eq, hsel, hm]

/-- C8: a product container whose price element text is `R$ 99,90`
followed by anything that does not extend the numeric amount yields price
exactly `"R$ 99,90"` — the alphabetic prefix `R` plus `$` plus the amount,
surrounding text discarded. -/
theorem price_symbol_amount (sx t : List Char)
    (hs : pyStrip sx = "R$ 99,90".toList ++ t)
    (ht : t = [] ∨ ∃ c t2, t = c :: t2 ∧ isAmountChar c = false) :
    (extractProductInfo (priceContainer sx) "http://b".toList).map
      Product.price = some "R$ 99,90".toList := by
  have hspan : selectOne
      (Sel.simple (.attrSub "class".toList "price".toList))
      (priceContainer sx) =
      some (.elem "span".toList [("class".toList, "price".toList)]
        [.text sx]) := rfl
  have hgt : getText (.elem "span".toList
      [("class".toList, "price".toList)] [.text sx]) = sx := by
    simp [getText, getTextList]
  have hps : priceSearch (pyStrip (getText (.elem "span".toList
      [("class".toList, "price".toList)] [.text sx]))) =
      some "R$ 99,90".toList := by
    rw [hgt, hs]
    exact priceSearch_rdollar t ht
  have hprice : priceFrom priceSelectors (priceContainer sx) =
      "R$ 99,90".toList := by
    have h := priceFrom_first_match
      (Sel.simple (.attrSub "class".toList "price".toList))
      priceSelectors.tail (priceContainer sx) _ _ hspan hps
    exact h
  have h0 : extractProductInfo (priceContainer sx) "http://b".toList =
      some ⟨"N".toList, priceFrom priceSelectors (priceContainer sx),
        [], []⟩ := rfl
  rw [h0, hprice]
  rfl

theorem price_symbol_amount_witness :
    (pyStrip "R$ 99,90 à vista".toList =
        "R$ 99,90".toList ++ " à vista".toList) ∧
      (extractProductInfo (priceContainer "R$ 99,90 à vista".toList)
        "http://b".toList).map Product.price = some "R$ 99,90".toList :=
  ⟨by decide,
    price_symbol_amount "R$ 99,90 à vista".toList " à vista".toList
      (by decide) (Or.inr ⟨' ', "à vista".toList, by decide, by decide⟩)⟩

end WebApi
